import Mathlib

/-!
Verification of the neon native runtime shim (crates/neon-runtime/src/neon.cc)
against its specification.  The V8 host is shallowly embedded: heap values are
identified by a numeric object id, local handles record their referent and the
scope-stack depth that owns them, persistent handles are an optional strong
reference, and fallible host allocations (string creation, property-name
enumeration) are abstracted as oracles carried in a `Host` record.
-/

namespace Neon

/-- A host heap value identity (the identity of a V8 heap object, as compared
by the pointer comparison of `v8::Local::operator==`). -/
abbrev ObjectId := Nat

/-- A local handle (`v8::Local`): a non-owning reference to a host value.
`depth` is the length of the scope stack at the moment the handle was
allocated, i.e. the nesting depth of the owning `HandleScope`. -/
structure Handle where
  ref : ObjectId
  depth : Nat
deriving DecidableEq

/-- One `HandleScope` frame: whether it is escapable
(`v8::EscapableHandleScope`) and the locals allocated inside it. -/
structure Frame where
  escapable : Bool
  locals : List ObjectId
deriving DecidableEq

/-- The scope stack of the host thread; the head is the innermost scope. -/
structure ScopeState where
  frames : List Frame
deriving DecidableEq

/-- Embedding of `Neon_Scope_Enter`: placement-new of a `v8::HandleScope`,
i.e. pushing a plain frame. -/
def Neon_Scope_Enter (s : ScopeState) : ScopeState :=
  ⟨⟨false, []⟩ :: s.frames⟩

/-- Embedding of `Neon_Scope_Enter_Escapable`: pushing an escapable frame. -/
def Neon_Scope_Enter_Escapable (s : ScopeState) : ScopeState :=
  ⟨⟨true, []⟩ :: s.frames⟩

/-- Embedding of `Neon_Scope_Exit` and `Neon_Scope_Exit_Escapable`: running
the scope destructor pops the innermost frame, invalidating every handle
allocated in it. -/
def Neon_Scope_Exit (s : ScopeState) : ScopeState :=
  ⟨s.frames.tail⟩

/-- Allocating a local handle in the innermost scope (the effect of any
`*out = ...local...` operation of the shim). -/
def allocLocal (s : ScopeState) (v : ObjectId) : Handle × ScopeState :=
  (⟨v, s.frames.length⟩,
    match s.frames with
    | [] => s
    | f :: rest => ⟨{ f with locals := v :: f.locals } :: rest⟩)

/-- A handle is valid when the scope that allocated it is still on the
stack: scopes are strictly stack-ordered, so the frame at depth `d` is live
exactly while the stack holds at least `d` frames. -/
def Handle.valid (h : Handle) (s : ScopeState) : Bool :=
  decide (0 < h.depth) && decide (h.depth ≤ s.frames.length)

/-- Whether the innermost scope is escapable. -/
def topEscapable (s : ScopeState) : Bool :=
  match s.frames with
  | [] => false
  | f :: _ => f.escapable

/-- Embedding of `Neon_Scope_Escape`: `*out = scope->Escape(value)`.  The
escape slot of a `v8::EscapableHandleScope` lives in the parent frame, so the
produced handle keeps the same referent and is owned by the parent scope
(depth one less than the current stack). -/
def Neon_Scope_Escape (s : ScopeState) (h : Handle) : Handle × ScopeState :=
  (⟨h.ref, s.frames.length - 1⟩,
    match s.frames with
    | [] => s
    | [f] => ⟨[f]⟩
    | f :: p :: rest => ⟨f :: { p with locals := h.ref :: p.locals } :: rest⟩)

/-- Scope operations that native code may perform after an escape, used to
express that the escaped handle stays valid for the rest of the parent
scope lifetime. -/
inductive ScopeOp where
  | push (escapable : Bool)
  | pop
  | alloc (v : ObjectId)
deriving DecidableEq

def applyScopeOp (s : ScopeState) : ScopeOp → ScopeState
  | .push e => ⟨⟨e, []⟩ :: s.frames⟩
  | .pop => ⟨s.frames.tail⟩
  | .alloc v => (allocLocal s v).2

def applyScopeOps (s : ScopeState) : List ScopeOp → ScopeState
  | [] => s
  | op :: ops => applyScopeOps (applyScopeOp s op) ops

/-- The scope at depth `d` stays alive along `ops`: every intermediate state
keeps at least `d` frames (popping the frame at depth `d` would drop the
stack below `d`). -/
def parentAlive (d : Nat) (s : ScopeState) : List ScopeOp → Bool
  | [] => decide (d ≤ s.frames.length)
  | op :: ops => decide (d ≤ s.frames.length) && parentAlive d (applyScopeOp s op) ops

/-- A persistent handle slot (`v8::Persistent`): empty, or holding a strong
reference to a host value. -/
abbrev PersistentSlot (α : Type) := Option α

/-- Embedding of `Neon_Mem_NewPersistent`: placement-new of an empty
`v8::Persistent`. -/
def Neon_Mem_NewPersistent : PersistentSlot ObjectId := none

/-- Embedding of `Neon_Mem_ResetPersistent`: `p->Reset(isolate, h)` disposes
any previous referent and stores the referent of `h`. -/
def Neon_Mem_ResetPersistent (_p : PersistentSlot ObjectId) (h : Handle) :
    PersistentSlot ObjectId :=
  some h.ref

/-- Embedding of `Neon_Mem_ReadPersistent`: `*out = Nan::New(*p)` allocates,
in the innermost active scope, a local aliasing the persistent referent; an
empty persistent yields an empty local, modelled as `none`. -/
def Neon_Mem_ReadPersistent (s : ScopeState) (p : PersistentSlot ObjectId) :
    Option Handle :=
  p.map (fun r => ⟨r, s.frames.length⟩)

/-- Embedding of `Neon_Mem_DropPersistent`: `p->Reset(); p->~Persistent();`.
`Reset()` disposes the strong reference when the slot is nonempty and leaves
the slot empty; on an empty slot it does nothing.  The destructor of
`v8::Persistent` with the default `NonCopyablePersistentTraits`
(`kResetInDestructor = false`) performs no further dispose.  The returned
Bool records whether this call disposed a reference. -/
def Neon_Mem_DropPersistent (p : PersistentSlot ObjectId) :
    PersistentSlot ObjectId × Bool :=
  match p with
  | some _ => (none, true)
  | none => (none, false)

/-- Embedding of `Neon_Mem_SameHandle`: `v1 == v2` on `v8::Local` compares
the identity of the referenced heap objects. -/
def Neon_Mem_SameHandle (v1 v2 : Handle) : Bool :=
  v1.ref == v2.ref

/-- The arguments a host call delivers to a native callback
(`v8::FunctionCallbackInfo` minus the data slot): whether the invocation was
a construct call (`info.IsConstructCall()`), and the argument referents. -/
structure CallbackInfo where
  isConstructCall : Bool
  args : List ObjectId
deriving DecidableEq

/-- Embedding of `neon::BaseClassMetadata` as stored by
`Neon_Class_CreateBase`: the construct and call kernels (as functions of the
call info, producing a result of type `R`), plus the opaque allocate and
drop kernels it also records. -/
structure BaseClassMetadata (R : Type) where
  construct : CallbackInfo → R
  call : CallbackInfo → R
  allocateKernel : Nat
  dropKernel : Nat

/-- Embedding of `Neon_Class_ConstructBaseCallback`: the dispatch callback
installed on the constructor template.  It recovers the metadata from the
template data slot and dispatches on `info.IsConstructCall()`: the construct
kernel for a construct call, the call kernel otherwise. -/
def Neon_Class_ConstructBaseCallback {R : Type} (m : BaseClassMetadata R)
    (info : CallbackInfo) : R :=
  if info.isConstructCall then m.construct info else m.call info

/-- The host constructor template built by `Neon_Class_CreateBase`
(`v8::FunctionTemplate::New(isolate, Neon_Class_ConstructBaseCallback,
data)`): its invocation callback, with the metadata external already bound. -/
structure ConstructorTemplate (R : Type) where
  invoke : CallbackInfo → R

/-- Embedding of `Neon_Class_CreateBase`: allocates the metadata from the
four registered kernels and builds the constructor template whose invocation
callback is `Neon_Class_ConstructBaseCallback` closed over that metadata. -/
def Neon_Class_CreateBase {R : Type} (construct call : CallbackInfo → R)
    (allocateKernel dropKernel : Nat) :
    BaseClassMetadata R × ConstructorTemplate R :=
  let m : BaseClassMetadata R :=
    ⟨construct, call, allocateKernel, dropKernel⟩
  (m, ⟨fun info => Neon_Class_ConstructBaseCallback m info⟩)

/-- The host-side fallible allocators the shim calls, abstracted as oracles:
whether `v8::String::NewFromUtf8` succeeds on a given byte buffer (and the
resulting host string is modelled by its byte content), and the result of
`Nan::GetOwnPropertyNames` on a given object (`none` when the host reports
failure). -/
structure Host where
  strAllocOk : List Nat → Bool
  ownPropertyNames : ObjectId → Option ObjectId

/-- Embedding of `neon::ClassMetadata` state touched by the name and method
operations: the class name installed on the function template
(`ft->SetClassName`), the name slice stored in the metadata
(`metadata->SetName`), and the prototype template entries
(`pt->Set(key, method)`). -/
structure ClassMetadata where
  templateClassName : Option (List Nat)
  nameSlice : Option (List Nat)
  prototypeMethods : List (List Nat × ObjectId)
deriving DecidableEq

/-- Embedding of `Neon_Class_SetName`: creates the class-name string (may
fail), then installs it on the template and stores the slice; returns false
leaving the metadata untouched when string creation fails. -/
def Neon_Class_SetName (host : Host) (m : ClassMetadata) (name : List Nat) :
    Bool × ClassMetadata :=
  if host.strAllocOk name then
    (true, { m with templateClassName := some name, nameSlice := some name })
  else
    (false, m)

/-- Embedding of `Neon_Class_AddMethod`: encodes the method name as a host
string key (may fail); on success sets the key to the method on the
prototype template and returns true, on failure returns false before
touching the prototype. -/
def Neon_Class_AddMethod (host : Host) (m : ClassMetadata) (name : List Nat)
    (method : ObjectId) : Bool × ClassMetadata :=
  if host.strAllocOk name then
    (true, { m with prototypeMethods := m.prototypeMethods ++ [(name, method)] })
  else
    (false, m)

/-- Embedding of `Neon_String_New`: creates a host string from the byte
buffer; on success resets the output persistent to it and returns true, on
failure returns false leaving the output untouched. -/
def Neon_String_New (host : Host) (out : PersistentSlot (List Nat))
    (bytes : List Nat) : Bool × PersistentSlot (List Nat) :=
  if host.strAllocOk bytes then (true, some bytes) else (false, out)

/-- Embedding of `Neon_Object_GetOwnPropertyNames`.  On host failure the
source returns false; on success it resets the output persistent to the
array and then reaches the closing brace of the function with NO return
statement, so the boolean result is unspecified, modelled as `none` in the
first component. -/
def Neon_Object_GetOwnPropertyNames (host : Host) (out : PersistentSlot ObjectId)
    (obj : ObjectId) : Option Bool × PersistentSlot ObjectId :=
  match host.ownPropertyNames obj with
  | none => (some false, out)
  | some arr => (none, some arr)

/-- A pending host exception (the state `Nan::ThrowError` leaves behind),
carrying the message content of the thrown Error. -/
inductive PendingException where
  | error (msg : List Nat)
deriving DecidableEq

/-- The fixed fallback message thrown by `Neon_Error_ThrowErrorFromUtf8`
when creating the message string fails. -/
def unknownNeonErrorMessage : List Nat :=
  "an unknown Neon error occurred".data.map Char.toNat

/-- Embedding of `Neon_Error_ThrowErrorFromUtf8`: tries to create the
message string from the UTF-8 buffer; on success throws
`v8::Exception::Error` with that message, on failure throws a generic error
with the fixed message.  The result is the pending exception, `none` meaning
the function returned without throwing (which no path does). -/
def Neon_Error_ThrowErrorFromUtf8 (host : Host) (bytes : List Nat) :
    Option PendingException :=
  if host.strAllocOk bytes then
    some (.error bytes)
  else
    some (.error unknownNeonErrorMessage)

/-- Embedding of `Neon_Fun_CallThin`: the body is commented out and replaced
by `return false`.  The third component records the host function
invocations the call performs (none). -/
def Neon_Fun_CallThin (out _fn _self : PersistentSlot ObjectId)
    (_argv : List (PersistentSlot ObjectId)) :
    Bool × PersistentSlot ObjectId × List CallbackInfo :=
  (false, out, [])

/-- Embedding of `Neon_Fun_ConstructThin`: the body is commented out and
replaced by `return false`.  The third component records the host function
invocations the call performs (none). -/
def Neon_Fun_ConstructThin (out _fn : PersistentSlot ObjectId)
    (_argv : List (PersistentSlot ObjectId)) :
    Bool × PersistentSlot ObjectId × List CallbackInfo :=
  (false, out, [])

/-! ### Task Queue Bridge

Modelled from the spec: the implementation of `neon::Task` and
`neon::queue_task` (neon_task.h / neon_task.cc) is not part of the excerpted
source; only their caller `Neon_Task_Schedule` is.  The bridge is modelled
from the spec: a Task moves through
`Created -> Queued -> Executing(offHostThread) -> Completing(onHostThread)
-> Finished`; `Schedule` enqueues from any thread; `perform` runs on a
worker thread; once `perform` finishes the Task is handed back to the host
thread where `complete` runs and the Task is released, consumed exactly
once.  Worker-thread parallelism is modelled by quantifying over every
interleaving of scheduler choices. -/

/-- Observable bridge events: a perform phase finishing on a worker thread,
and a complete callback running on the host thread.  Tasks are identified by
a numeric id. -/
inductive TaskEvent where
  | performEnd (i : Nat)
  | complete (i : Nat)
deriving DecidableEq

/-- The bridge state: the multiset of task ids in each lifecycle stage, and
the event log, newest event first. -/
structure BridgeState where
  queued : List Nat
  executing : List Nat
  completing : List Nat
  finished : List Nat
  events : List TaskEvent
deriving DecidableEq

/-- The bridge before any task is scheduled. -/
def emptyBridge : BridgeState :=
  ⟨[], [], [], [], []⟩

/-- Modelled from the spec: `Neon_Task_Schedule` wraps the task and hands it
to `neon::queue_task`, which enqueues it into the bridge queue (callable
from any thread). -/
def Neon_Task_Schedule (task : Nat) (s : BridgeState) : BridgeState :=
  { s with queued := task :: s.queued }

/-- One scheduler choice: a schedule call from some thread, a worker picking
a queued task up, a worker finishing the perform phase of a task, or the
host thread draining one completion. -/
inductive BridgeChoice where
  | schedule (i : Nat)
  | startPerform (i : Nat)
  | finishPerform (i : Nat)
  | runComplete (i : Nat)
deriving DecidableEq

/-- Modelled from the spec: one step of the bridge.  A task can start
executing only from the queue, can finish performing only while executing
(logging `performEnd`), and its complete callback runs on the host thread
only after its perform finished (logging `complete`); choices whose guard
fails change nothing. -/
def bridgeStep (s : BridgeState) : BridgeChoice → BridgeState
  | .schedule i => Neon_Task_Schedule i s
  | .startPerform i =>
    if i ∈ s.queued then
      { s with queued := s.queued.erase i, executing := i :: s.executing }
    else s
  | .finishPerform i =>
    if i ∈ s.executing then
      { s with executing := s.executing.erase i, completing := i :: s.completing,
               events := .performEnd i :: s.events }
    else s
  | .runComplete i =>
    if i ∈ s.completing then
      { s with completing := s.completing.erase i, finished := i :: s.finished,
               events := .complete i :: s.events }
    else s

/-- Running the bridge through a sequence of scheduler choices. -/
def bridgeRun (s : BridgeState) : List BridgeChoice → BridgeState
  | [] => s
  | c :: cs => bridgeRun (bridgeStep s c) cs

/-- On a newest-first event log: every complete event is preceded (further
toward the tail, i.e. earlier in time) by the performEnd event of the same
task. -/
def completesAfterPerform : List TaskEvent → Bool
  | [] => true
  | .performEnd _ :: older => completesAfterPerform older
  | .complete i :: older =>
    decide (TaskEvent.performEnd i ∈ older) && completesAfterPerform older

/-- How many copies of task id `i` the bridge currently holds, over all
lifecycle stages. -/
def taskLoad (s : BridgeState) (i : Nat) : Nat :=
  s.queued.count i + s.executing.count i + s.completing.count i + s.finished.count i

/-- The bridge invariant: the event log counts agree with the lifecycle
stages, and no complete event precedes the matching performEnd. -/
def BridgeInv (s : BridgeState) : Prop :=
  (∀ i, s.events.count (TaskEvent.performEnd i)
      = s.completing.count i + s.finished.count i) ∧
  (∀ i, s.events.count (TaskEvent.complete i) = s.finished.count i) ∧
  completesAfterPerform s.events = true

/-! ### Concrete values used by the witnesses -/

/-- A one-frame scope stack. -/
def demoScope : ScopeState := ⟨[⟨false, []⟩]⟩

/-- An escapable scope with one local, nested in a plain scope. -/
def demoEscScope : ScopeState := ⟨[⟨true, [7]⟩, ⟨false, []⟩]⟩

/-- A host whose allocations all succeed. -/
def demoOkHost : Host := ⟨fun _ => true, fun _ => some 7⟩

/-- A host whose allocations all fail. -/
def demoFailHost : Host := ⟨fun _ => false, fun _ => none⟩

/-- A schedule that runs two tasks to completion, out of scheduling order. -/
def demoSchedule : List BridgeChoice :=
  [.schedule 0, .schedule 1, .startPerform 0, .startPerform 1,
   .finishPerform 1, .runComplete 1, .finishPerform 0, .runComplete 0]

/-! ## Theorems -/

/-- C1: invoking the constructor template built by `Neon_Class_CreateBase`
runs `Neon_Class_ConstructBaseCallback`, which invokes the registered
construct kernel exactly when the host reports a construct call and the
registered call kernel on every non-construct invocation; the result is
always one of those two kernel applications, so no other callback is ever
selected. -/
theorem class_construct_dispatch {R : Type} (construct call : CallbackInfo → R)
    (allocateKernel dropKernel : Nat) (info : CallbackInfo) :
    ((Neon_Class_CreateBase construct call allocateKernel dropKernel).2.invoke info
        = (Neon_Class_CreateBase construct call allocateKernel dropKernel).1.construct info
      ∨ (Neon_Class_CreateBase construct call allocateKernel dropKernel).2.invoke info
        = (Neon_Class_CreateBase construct call allocateKernel dropKernel).1.call info)
    ∧ (info.isConstructCall = true →
        (Neon_Class_CreateBase construct call allocateKernel dropKernel).2.invoke info
          = construct info)
    ∧ (info.isConstructCall = false →
        (Neon_Class_CreateBase construct call allocateKernel dropKernel).2.invoke info
          = call info) := by
  cases h : info.isConstructCall <;>
    simp [Neon_Class_CreateBase, Neon_Class_ConstructBaseCallback, h]

/-- Witness for C1: with a construct kernel returning 1 and a call kernel
returning 2, a construct call yields 1 and a plain call yields 2. -/
theorem class_construct_dispatch_witness :
    (Neon_Class_CreateBase (fun _ => (1 : Nat)) (fun _ => 2) 0 0).2.invoke ⟨true, []⟩ = 1
    ∧ (Neon_Class_CreateBase (fun _ => (1 : Nat)) (fun _ => 2) 0 0).2.invoke ⟨false, []⟩ = 2 :=
  ⟨(class_construct_dispatch (fun _ => 1) (fun _ => 2) 0 0 ⟨true, []⟩).2.1 rfl,
   (class_construct_dispatch (fun _ => 1) (fun _ => 2) 0 0 ⟨false, []⟩).2.2 rfl⟩

/-- C2: `Neon_Mem_DropPersistent` leaves the slot referring to nothing, and
dropping the already-dropped slot again disposes no reference (no
double-free, no fault) and still leaves the slot empty. -/
theorem drop_persistent_idempotent (p : PersistentSlot ObjectId) :
    (Neon_Mem_DropPersistent p).1 = none
    ∧ Neon_Mem_DropPersistent (Neon_Mem_DropPersistent p).1 = (none, false) := by
  cases p <;> simp [Neon_Mem_DropPersistent]

/-- C3: a value stored through `Neon_Mem_ResetPersistent` and read back with
`Neon_Mem_ReadPersistent` while a scope is active yields a handle whose
referent is the identical host value, valid in the active scope. -/
theorem persistent_roundtrip (s : ScopeState) (p : PersistentSlot ObjectId)
    (h : Handle) (hs : 0 < s.frames.length) :
    Neon_Mem_ReadPersistent s (Neon_Mem_ResetPersistent p h)
      = some ⟨h.ref, s.frames.length⟩
    ∧ Handle.valid ⟨h.ref, s.frames.length⟩ s = true := by
  refine ⟨rfl, ?_⟩
  simp [Handle.valid, hs]

/-- Witness for C3: resetting object 5 into an empty persistent and reading
it back inside a one-frame scope yields a valid handle to object 5. -/
theorem persistent_roundtrip_witness :
    Neon_Mem_ReadPersistent demoScope (Neon_Mem_ResetPersistent none ⟨5, 1⟩)
      = some ⟨5, 1⟩
    ∧ Handle.valid ⟨5, 1⟩ demoScope = true :=
  persistent_roundtrip demoScope none ⟨5, 1⟩ (by decide)

/-- Helper for C4: if the scope at depth `d` stays alive along `ops`, the
final stack still holds at least `d` frames. -/
theorem parentAlive_length (d : Nat) :
    ∀ (ops : List ScopeOp) (s : ScopeState), parentAlive d s ops = true →
      d ≤ (applyScopeOps s ops).frames.length := by
  intro ops
  induction ops with
  | nil =>
    intro s hs
    simpa [parentAlive, applyScopeOps] using hs
  | cons op ops ih =>
    intro s hs
    simp only [parentAlive, Bool.and_eq_true, decide_eq_true_eq] at hs
    exact ih (applyScopeOp s op) hs.2

/-- C4: `Neon_Scope_Escape` on a handle created in the innermost (escapable)
scope produces a handle with the identical referent, owned by the parent
scope, which remains valid after the escapable scope is exited and through
any further scope operations during which the parent scope stays alive. -/
theorem scope_escape_preserves (s : ScopeState) (h : Handle) (ops : List ScopeOp)
    (hlen : 2 ≤ s.frames.length)
    (_hesc : topEscapable s = true)
    (hin : h.depth = s.frames.length)
    (halive : parentAlive (s.frames.length - 1)
        (Neon_Scope_Exit (Neon_Scope_Escape s h).2) ops = true) :
    (Neon_Scope_Escape s h).1.ref = h.ref
    ∧ (Neon_Scope_Escape s h).1.depth = s.frames.length - 1
    ∧ Handle.valid (Neon_Scope_Escape s h).1
        (applyScopeOps (Neon_Scope_Exit (Neon_Scope_Escape s h).2) ops) = true := by
  refine ⟨rfl, rfl, ?_⟩
  have hrest := parentAlive_length (s.frames.length - 1) ops _ halive
  simp only [Handle.valid, Neon_Scope_Escape, Bool.and_eq_true, decide_eq_true_eq]
  exact ⟨by omega, hrest⟩

/-- Witness for C4: escaping the handle to object 7 out of the escapable
scope of `demoEscScope`, then allocating in a fresh nested scope and popping
it, leaves the escaped handle valid with referent 7. -/
theorem scope_escape_preserves_witness :
    (Neon_Scope_Escape demoEscScope ⟨7, 2⟩).1.ref = 7
    ∧ (Neon_Scope_Escape demoEscScope ⟨7, 2⟩).1.depth = 1
    ∧ Handle.valid (Neon_Scope_Escape demoEscScope ⟨7, 2⟩).1
        (applyScopeOps (Neon_Scope_Exit (Neon_Scope_Escape demoEscScope ⟨7, 2⟩).2)
          [.push false, .alloc 3, .pop]) = true :=
  scope_escape_preserves demoEscScope ⟨7, 2⟩ [.push false, .alloc 3, .pop]
    (by decide) (by decide) (by decide) (by decide)

/-- C5: evaluation at the failing input.  On a host where allocation
succeeds, `Neon_Object_GetOwnPropertyNames` reaches the end of the function
without any return statement, so its boolean result is unspecified (`none`)
rather than the `true` the claim requires; its failure path and the other
boolean operations (`Neon_String_New`, `Neon_Class_SetName`) do return the
proper sentinel. -/
theorem getOwnPropertyNames_success_unspecified :
    (Neon_Object_GetOwnPropertyNames demoOkHost none 0).1 = none
    ∧ (Neon_Object_GetOwnPropertyNames demoFailHost none 0).1 = some false
    ∧ (Neon_String_New demoOkHost none [65]).1 = true
    ∧ (Neon_String_New demoFailHost none [65]).1 = false
    ∧ (Neon_Class_SetName demoOkHost ⟨none, none, []⟩ [65]).1 = true
    ∧ (Neon_Class_SetName demoFailHost ⟨none, none, []⟩ [65]).1 = false :=
  ⟨rfl, rfl, rfl, rfl, rfl, rfl⟩

/-- C6: `Neon_Class_AddMethod` returns true exactly when the method name can
be encoded as a host string key; on success the named callable is appended
to the prototype template, and on failure the metadata (in particular the
prototype) is left unchanged. -/
theorem add_method_spec (host : Host) (m : ClassMetadata) (name : List Nat)
    (method : ObjectId) :
    ((Neon_Class_AddMethod host m name method).1 = true ↔ host.strAllocOk name = true)
    ∧ (host.strAllocOk name = true →
        (Neon_Class_AddMethod host m name method).2.prototypeMethods
          = m.prototypeMethods ++ [(name, method)])
    ∧ (host.strAllocOk name = false →
        (Neon_Class_AddMethod host m name method).2 = m) := by
  by_cases hok : host.strAllocOk name <;> simp [Neon_Class_AddMethod, hok]

/-- Witness for C6: adding a method succeeds and extends the prototype on a
host whose string allocation succeeds, and leaves the metadata unchanged on
one whose string allocation fails. -/
theorem add_method_spec_witness :
    (Neon_Class_AddMethod demoOkHost ⟨none, none, []⟩ [65] 3).2.prototypeMethods
      = [([65], 3)]
    ∧ (Neon_Class_AddMethod demoFailHost ⟨none, none, []⟩ [65] 3).2
      = ⟨none, none, []⟩ :=
  ⟨(add_method_spec demoOkHost ⟨none, none, []⟩ [65] 3).2.1 rfl,
   (add_method_spec demoFailHost ⟨none, none, []⟩ [65] 3).2.2 rfl⟩

/-- C7: the thin cross-thread call variants `Neon_Fun_CallThin` and
`Neon_Fun_ConstructThin` are stubs: for every function, receiver and
argument list they return false, leave the output slot untouched, and
perform no host function invocation. -/
theorem thin_call_variants_stubbed (out fn self : PersistentSlot ObjectId)
    (argv : List (PersistentSlot ObjectId)) :
    Neon_Fun_CallThin out fn self argv = (false, out, [])
    ∧ Neon_Fun_ConstructThin out fn argv = (false, out, []) :=
  ⟨rfl, rfl⟩

/-- C8: `Neon_Mem_SameHandle` holds exactly when the two handles reference
the identical host value: it is reflexive, and it distinguishes two
handles to distinct objects even when the heap contents of the two objects
are structurally equal. -/
theorem same_handle_referent_identity (heap : ObjectId → List Nat) (h1 h2 : Handle) :
    (Neon_Mem_SameHandle h1 h2 = true ↔ h1.ref = h2.ref)
    ∧ Neon_Mem_SameHandle h1 h1 = true
    ∧ (h1.ref ≠ h2.ref → heap h1.ref = heap h2.ref →
        Neon_Mem_SameHandle h1 h2 = false) := by
  refine ⟨by simp [Neon_Mem_SameHandle], by simp [Neon_Mem_SameHandle], ?_⟩
  intro hne _
  simp [Neon_Mem_SameHandle, hne]

/-- Witness for C8: the handle to object 1 equals itself, and two handles to
the distinct objects 1 and 2 differ even under a heap assigning every
object the same content. -/
theorem same_handle_referent_identity_witness :
    Neon_Mem_SameHandle ⟨1, 1⟩ ⟨1, 1⟩ = true
    ∧ Neon_Mem_SameHandle ⟨1, 1⟩ ⟨2, 1⟩ = false :=
  ⟨(same_handle_referent_identity (fun _ => []) ⟨1, 1⟩ ⟨1, 1⟩).2.1,
   (same_handle_referent_identity (fun _ => []) ⟨1, 1⟩ ⟨2, 1⟩).2.2 (by decide) rfl⟩

/-- C10: `Neon_Error_ThrowErrorFromUtf8` leaves a pending exception on every
input: an Error carrying the message when string creation succeeds, and an
Error with the fixed unknown-error message when string creation fails. -/
theorem throw_error_from_utf8_always_throws (host : Host) (bytes : List Nat) :
    (Neon_Error_ThrowErrorFromUtf8 host bytes).isSome = true
    ∧ (host.strAllocOk bytes = true →
        Neon_Error_ThrowErrorFromUtf8 host bytes
          = some (PendingException.error bytes))
    ∧ (host.strAllocOk bytes = false →
        Neon_Error_ThrowErrorFromUtf8 host bytes
          = some (PendingException.error unknownNeonErrorMessage)) := by
  by_cases hok : host.strAllocOk bytes <;>
    simp [Neon_Error_ThrowErrorFromUtf8, hok]

/-- Witness for C10: on a succeeding host the thrown Error carries the input
bytes; on a failing host it carries the fixed fallback message. -/
theorem throw_error_from_utf8_witness :
    Neon_Error_ThrowErrorFromUtf8 demoOkHost [104, 105]
      = some (PendingException.error [104, 105])
    ∧ Neon_Error_ThrowErrorFromUtf8 demoFailHost [104, 105]
      = some (PendingException.error unknownNeonErrorMessage) :=
  ⟨(throw_error_from_utf8_always_throws demoOkHost [104, 105]).2.1 rfl,
   (throw_error_from_utf8_always_throws demoFailHost [104, 105]).2.2 rfl⟩

/-- Helper for C9: the invariant holds before any task is scheduled. -/
theorem bridgeInv_empty : BridgeInv emptyBridge := by
  refine ⟨fun i => ?_, fun i => ?_, rfl⟩ <;> simp [emptyBridge]

/-- Helper for C9: membership gives a positive count. -/
theorem one_le_count_of_mem {l : List Nat} {i : Nat} (h : i ∈ l) : 1 ≤ l.count i :=
  List.one_le_count_iff.mpr h

/-- Helper for C9: each bridge step preserves the invariant. -/
theorem bridgeStep_inv {s : BridgeState} (hs : BridgeInv s) (c : BridgeChoice) :
    BridgeInv (bridgeStep s c) := by
  obtain ⟨h1, h2, h3⟩ := hs
  cases c with
  | schedule j =>
    exact ⟨h1, h2, h3⟩
  | startPerform j =>
    by_cases hj : j ∈ s.queued <;> simp only [bridgeStep, hj, if_true, if_false]
    · exact ⟨h1, h2, h3⟩
    · exact ⟨h1, h2, h3⟩
  | finishPerform j =>
    by_cases hj : j ∈ s.executing <;> simp only [bridgeStep, hj, if_true, if_false]
    · refine ⟨fun i => ?_, fun i => ?_, ?_⟩
      · rcases eq_or_ne i j with hij | hij
        · subst hij
          simp [List.count_cons, h1 i]
          omega
        · simp [List.count_cons, hij, h1 i, (Ne.symm hij)]
      · simp [List.count_cons, h2 i]
      · simpa [completesAfterPerform] using h3
    · exact ⟨h1, h2, h3⟩
  | runComplete j =>
    by_cases hj : j ∈ s.completing <;> simp only [bridgeStep, hj, if_true, if_false]
    · have hcnt : 1 ≤ s.completing.count j := one_le_count_of_mem hj
      refine ⟨fun i => ?_, fun i => ?_, ?_⟩
      · rcases eq_or_ne i j with hij | hij
        · subst hij
          have := h1 i
          simp [List.count_cons, List.count_erase_self]
          omega
        · simp [List.count_cons, hij, Ne.symm hij,
            List.count_erase_of_ne hij, h1 i]
      · rcases eq_or_ne i j with hij | hij
        · subst hij
          simp [List.count_cons, h2 i]
        · simp [List.count_cons, hij, Ne.symm hij, h2 i]
      · have hmem : TaskEvent.performEnd j ∈ s.events := by
          have := h1 j
          have : 1 ≤ s.events.count (TaskEvent.performEnd j) := by omega
          exact List.one_le_count_iff.mp this
        simpa [completesAfterPerform, hmem] using h3
    · exact ⟨h1, h2, h3⟩

/-- Helper for C9: the invariant holds after any run of the bridge. -/
theorem bridgeRun_inv :
    ∀ (cs : List BridgeChoice) (s : BridgeState), BridgeInv s →
      BridgeInv (bridgeRun s cs) := by
  intro cs
  induction cs with
  | nil => exact fun s hs => hs
  | cons c cs ih => exact fun s hs => ih (bridgeStep s c) (bridgeStep_inv hs c)

/-- Helper for C9: one step changes the total number of copies of task `i`
held by the bridge by one exactly on a schedule of `i`, else not at all. -/
theorem bridgeStep_load (s : BridgeState) (c : BridgeChoice) (i : Nat) :
    taskLoad (bridgeStep s c) i
      = taskLoad s i + (if c = BridgeChoice.schedule i then 1 else 0) := by
  cases c with
  | schedule j =>
    rcases eq_or_ne j i with hij | hij
    · subst hij
      simp [bridgeStep, Neon_Task_Schedule, taskLoad, List.count_cons]
      omega
    · simp [bridgeStep, Neon_Task_Schedule, taskLoad, List.count_cons,
        hij, Ne.symm hij]
  | startPerform j =>
    by_cases hj : j ∈ s.queued <;> simp only [bridgeStep, hj, if_true, if_false]
    · rcases eq_or_ne i j with hij | hij
      · subst hij
        have hcnt : 1 ≤ s.queued.count i := one_le_count_of_mem hj
        simp [taskLoad, List.count_cons, List.count_erase_self]
        omega
      · simp [taskLoad, List.count_cons, hij, Ne.symm hij,
          List.count_erase_of_ne hij]
    · simp [taskLoad]
  | finishPerform j =>
    by_cases hj : j ∈ s.executing <;> simp only [bridgeStep, hj, if_true, if_false]
    · rcases eq_or_ne i j with hij | hij
      · subst hij
        have hcnt : 1 ≤ s.executing.count i := one_le_count_of_mem hj
        simp [taskLoad, List.count_cons, List.count_erase_self]
        omega
      · simp [taskLoad, List.count_cons, hij, Ne.symm hij,
          List.count_erase_of_ne hij]
    · simp [taskLoad]
  | runComplete j =>
    by_cases hj : j ∈ s.completing <;> simp only [bridgeStep, hj, if_true, if_false]
    · rcases eq_or_ne i j with hij | hij
      · subst hij
        have hcnt : 1 ≤ s.completing.count i := one_le_count_of_mem hj
        simp [taskLoad, List.count_cons, List.count_erase_self]
        omega
      · simp [taskLoad, List.count_cons, hij, Ne.symm hij,
          List.count_erase_of_ne hij]
    · simp [taskLoad]

/-- Helper for C9: after a run, the bridge holds one copy of task `i` per
schedule choice of `i` in the run, on top of what it started with. -/
theorem bridgeRun_load :
    ∀ (cs : List BridgeChoice) (s : BridgeState) (i : Nat),
      taskLoad (bridgeRun s cs) i
        = taskLoad s i + cs.count (BridgeChoice.schedule i) := by
  intro cs
  induction cs with
  | nil => intro s i; simp [bridgeRun]
  | cons c cs ih =>
    intro s i
    have hstep := bridgeStep_load s c i
    have hrun := ih (bridgeStep s c) i
    rcases eq_or_ne c (BridgeChoice.schedule i) with hc | hc
    · subst hc
      simp only [bridgeRun] at *
      simp [List.count_cons, hrun, hstep]
      omega
    · simp only [bridgeRun] at *
      simp [List.count_cons, hc, hrun, hstep]

/-- C9: for every interleaving of schedule calls (from any number of worker
threads) and bridge steps that drains the bridge, the number of complete
invocations run on the host thread for task `i` equals the number of times
task `i` was scheduled (exactly once per task), and no complete event
precedes the performEnd event of the same task in the (newest-first) event
log. -/
theorem task_schedule_exactly_once (cs : List BridgeChoice) (i : Nat)
    (hq : (bridgeRun emptyBridge cs).queued = [])
    (he : (bridgeRun emptyBridge cs).executing = [])
    (hc : (bridgeRun emptyBridge cs).completing = []) :
    (bridgeRun emptyBridge cs).events.count (TaskEvent.complete i)
      = cs.count (BridgeChoice.schedule i)
    ∧ completesAfterPerform (bridgeRun emptyBridge cs).events = true := by
  obtain ⟨h1, h2, h3⟩ := bridgeRun_inv cs emptyBridge bridgeInv_empty
  have hload := bridgeRun_load cs emptyBridge i
  have h0 : taskLoad emptyBridge i = 0 := rfl
  rw [h0, Nat.zero_add] at hload
  have hfin : (bridgeRun emptyBridge cs).finished.count i
      = cs.count (BridgeChoice.schedule i) := by
    simp only [taskLoad, hq, he, hc, List.count_nil, Nat.zero_add] at hload
    exact hload
  exact ⟨(h2 i).trans hfin, h3⟩

/-- Witness for C9: running `demoSchedule` drains the bridge; task 0 was
scheduled once and completed once, with every complete after its perform. -/
theorem task_schedule_exactly_once_witness :
    (bridgeRun emptyBridge demoSchedule).events.count (TaskEvent.complete 0)
      = demoSchedule.count (BridgeChoice.schedule 0)
    ∧ completesAfterPerform (bridgeRun emptyBridge demoSchedule).events = true :=
  task_schedule_exactly_once demoSchedule 0 (by decide) (by decide) (by decide)

end Neon
